import Mathlib

/-!
Verification development for the windcal repository, centred on the
continuous-threshold-block extraction and calendar-event synthesis of
`src/scripts/create_calendar.py` (`create_gust_calendar`).

Modelling conventions:
* A timestamp string `YYYY-MM-DD HH:MM:SS` successfully parsed by
  `datetime.strptime` is modelled as a `DT` record of its six fields
  (`TimeField.good`); a forecast entry whose `datetime` key is absent is
  `TimeField.missing` (the `forecast.get('datetime') is None` branch), and an
  entry whose string `strptime` rejects with `ValueError` is
  `TimeField.malformed`.
* Instants are compared and shifted through `toSec`, the proleptic-Gregorian
  second count used by Python's `datetime` arithmetic (no leap seconds);
  `timedelta` values are plain second counts (`Int`).
* JSON numbers (threshold, gust, speed, direction, latitude, longitude) are
  modelled as rationals; Python's `%.3f` / `%.1f` float formatting is modelled
  by exact round-half-even on the rational value.
* The resolved timezone of the location (TimezoneFinder + pytz, external
  collaborators) is modelled as an invocation-scoped UTC offset in seconds,
  threaded as a parameter; the generation wall-clock stamp
  (`datetime.utcnow()`) is threaded as the string parameter `now`.
-/

namespace Windcal

/-- A parsed `YYYY-MM-DD HH:MM:SS` timestamp, the result of a successful
`datetime.strptime(s, '%Y-%m-%d %H:%M:%S')`. -/
structure DT where
  year : Nat
  month : Nat
  day : Nat
  hour : Nat
  minute : Nat
  second : Nat
deriving DecidableEq

/-- Field ranges guaranteed by a successful `strptime` with format
`%Y-%m-%d %H:%M:%S`. -/
def DT.Valid (d : DT) : Prop :=
  0 < d.year ∧ d.year < 10000 ∧ 1 ≤ d.month ∧ d.month ≤ 12 ∧
  1 ≤ d.day ∧ d.day ≤ 31 ∧ d.hour < 24 ∧ d.minute < 60 ∧ d.second < 60

instance (d : DT) : Decidable d.Valid := by unfold DT.Valid; infer_instance

/-- Days since 1970-01-01 of a proleptic-Gregorian civil date (the day count
underlying Python `datetime` subtraction); `/` on `Int` is floor division for
the positive divisors used here. -/
def daysFromCivil (y m d : Int) : Int :=
  let y2 := if m ≤ 2 then y - 1 else y
  let era := y2 / 400
  let yoe := y2 - era * 400
  let mp := (m + 9) % 12
  let doy := (153 * mp + 2) / 5 + d - 1
  let doe := yoe * 365 + yoe / 4 - yoe / 100 + doy
  era * 146097 + doe - 719468

/-- Seconds since 1970-01-01 00:00:00 of a `DT`; Python `datetime` differences
and `timedelta` additions act on this count. -/
def toSec (dt : DT) : Int :=
  daysFromCivil dt.year dt.month dt.day * 86400 +
    (dt.hour : Int) * 3600 + (dt.minute : Int) * 60 + (dt.second : Int)

/-- Inverse civil-date computation, used to render an instant obtained from
`timedelta` addition back into calendar fields (Python does this internally
when `strftime` is called on `datetime + timedelta`). -/
def civilFromDays (z0 : Int) : Int × Int × Int :=
  let z := z0 + 719468
  let era := z / 146097
  let doe := z - era * 146097
  let yoe := (doe - doe / 1460 + doe / 36524 - doe / 146096) / 365
  let y := yoe + era * 400
  let doy := doe - (365 * yoe + yoe / 4 - yoe / 100)
  let mp := (5 * doy + 2) / 153
  let d := doy - (153 * mp + 2) / 5 + 1
  let m := if mp < 10 then mp + 3 else mp - 9
  (if m ≤ 2 then y + 1 else y, m, d)

/-- Calendar fields of a second count (for rendering `DTEND` of a block that
was closed by the `last member + interval` rule). -/
def dtOfSec (n : Int) : DT :=
  let days := n / 86400
  let rem := n % 86400
  let c := civilFromDays days
  ⟨c.1.toNat, c.2.1.toNat, c.2.2.toNat,
   (rem / 3600).toNat, ((rem % 3600) / 60).toNat, (rem % 60).toNat⟩

/-- The decimal digit character of `k` (for `k < 10`). -/
def digit (k : Nat) : Char := Char.ofNat (48 + k)

/-- Two-digit zero-padded decimal rendering (`%02d` of strftime), as chars. -/
def pad2L (n : Nat) : List Char := [digit (n / 10 % 10), digit (n % 10)]

/-- Four-digit zero-padded decimal rendering (`%Y` of strftime), as chars. -/
def pad4L (n : Nat) : List Char :=
  [digit (n / 1000 % 10), digit (n / 100 % 10), digit (n / 10 % 10), digit (n % 10)]

/-- Two-digit zero-padded decimal rendering as a string. -/
def pad2s (n : Nat) : String := String.mk (pad2L n)

/-- The character list of `dt.strftime('%Y%m%dT%H%M%S')`. -/
def dtChars (dt : DT) : List Char :=
  pad4L dt.year ++ pad2L dt.month ++ pad2L dt.day ++ ['T'] ++
    pad2L dt.hour ++ pad2L dt.minute ++ pad2L dt.second

/-- `dt.strftime('%Y%m%dT%H%M%S')`. -/
def formatDT (dt : DT) : String := String.mk (dtChars dt)

/-- `strftime('%H:%M')` of a parsed `DT` (read off its fields). -/
def hhmmOfDT (dt : DT) : String := pad2s dt.hour ++ ":" ++ pad2s dt.minute

/-- `strftime('%H:%M')` of an instant given as a second count. -/
def hhmmOfSec (n : Int) : String :=
  let x := n % 86400
  pad2s (x / 3600).toNat ++ ":" ++ pad2s ((x % 3600) / 60).toNat

/-- The `datetime` field of a forecast entry: absent key, present but
unparseable string, or a successfully parsed timestamp. -/
inductive TimeField where
  | missing : TimeField
  | malformed : TimeField
  | good : DT → TimeField
deriving DecidableEq

/-- Whether the entry's timestamp parsed. -/
def TimeField.isGood : TimeField → Bool
  | TimeField.good _ => true
  | _ => false

/-- One element of the input JSON `forecasts` array, with the four keys
`create_gust_calendar` reads (`datetime`, `wind_gust_kt`, `wind_speed_kt`,
`wind_dir_deg`); an `Option` field models a possibly-absent key. -/
structure Forecast where
  datetime : TimeField
  gust : Option ℚ
  speed : Option ℚ
  dir : Option ℚ
deriving DecidableEq

/-- Round to nearest integer, ties to even — the rounding of Python's float
formatting (`%.3f`, `%.1f`). -/
def roundHalfEven (q : ℚ) : Int :=
  let f := q.floor
  let r := q - f
  if r < 1/2 then f
  else if 1/2 < r then f + 1
  else if f % 2 = 0 then f else f + 1

/-- Python `int()` on a number: truncation toward zero. -/
def pyInt (q : ℚ) : Int := if 0 ≤ q then q.floor else -((-q).floor)

/-- Three-decimal fixed rendering of a nonnegative scaled value
(`n` thousandths). -/
def fmtThousandths (n : Nat) : String :=
  toString (n / 1000) ++ "." ++
    String.mk [digit (n % 1000 / 100), digit (n % 100 / 10), digit (n % 10)]

/-- Python `f"{q:.3f}"`. -/
def format3 (q : ℚ) : String :=
  (if q < 0 then "-" else "") ++
    fmtThousandths (roundHalfEven ((if q < 0 then -q else q) * 1000)).toNat

/-- Python `f"{q:.1f}"`. -/
def fmt1 (q : ℚ) : String :=
  (if q < 0 then "-" else "") ++
    (let n := (roundHalfEven ((if q < 0 then -q else q) * 10)).toNat
     toString (n / 10) ++ "." ++ String.mk [digit (n % 10)])

/-- The sixteen compass labels of `degrees_to_cardinal`. -/
def directions : List String :=
  ["N", "NNE", "NE", "ENE", "E", "ESE", "SE", "SSE",
   "S", "SSW", "SW", "WSW", "W", "WNW", "NW", "NNW"]

/-- `degrees_to_cardinal`: `None` yields a distinct label; otherwise the
degree value is reduced mod 360 and mapped through
`floor((d + 11.25) / 22.5) % 16`. -/
def degreesToCardinal (deg : Option ℚ) : String :=
  match deg with
  | none => "N/A"
  | some d0 =>
      let d := d0 - 360 * ((d0 / 360).floor : ℚ)
      directions.getD (((d + 1125/100) / (225/10)).floor % 16).toNat ("N/A")

/-- iCalendar text escaping of one character (`format_ical_description_line`
line 41: backslash, semicolon and comma are escaped; chained `str.replace`
is equivalent to this single character-wise pass). -/
def escChar (c : Char) : List Char :=
  if c = '\\' then ['\\', '\\']
  else if c = ';' then ['\\', ';']
  else if c = ',' then ['\\', ','] else [c]

/-- iCalendar text escaping of a whole line. -/
def escapeICal (s : String) : String := String.mk (s.data.map escChar).flatten

/-- The threshold test of line 246:
`is_over_threshold = gust > gust_threshold_kt`, with the absent-key default
`forecast.get('wind_gust_kt', 0)` of line 150. Strict greater-than. -/
def over (T : ℚ) (f : Forecast) : Bool := decide (f.gust.getD 0 > T)

/-- The timestamp of an entry known to have parsed (entries stored in
`current_block` are re-parsed with `strptime` at emission time; the parse
cannot fail there, so the fallback value is never reached). -/
def getDT (f : Forecast) : DT :=
  match f.datetime with
  | TimeField.good d => d
  | _ => ⟨1900, 1, 1, 0, 0, 0⟩

/-- `current_block[-1]` of a nonempty block given as head and tail. -/
def lastOf (s : Forecast) : List Forecast → Forecast
  | [] => s
  | t :: ts => lastOf t ts

/-- `SUMMARY` text of the missing-`datetime` force-close path (line 190):
threshold only. -/
def summaryNoTimes (T : ℚ) : String := "Gusts > " ++ toString (pyInt T) ++ " kt"

/-- `SUMMARY` text of the other three closing paths (lines 237, 290, 336):
threshold plus the UTC start/end times of day. -/
def summaryTimes (T : ℚ) (s : DT) (endSec : Int) : String :=
  summaryNoTimes T ++ " (UTC: " ++ hhmmOfDT s ++ " - " ++ hhmmOfSec endSec ++ ")"

/-- One emitted calendar event, as produced inside the scanning loop: the
member samples of the closed block (`current_block` at closing time), the
block start (`strptime(current_block[0]['datetime'])`), the block end as an
instant, and the `SUMMARY` text chosen by the closing path. The remaining
event properties (UID, DTSTART, DTEND, LOCATION, DESCRIPTION) are pure
functions of these fields and the run parameters, applied at rendering. -/
structure Event where
  members : List Forecast
  startDT : DT
  endSec : Int
  summary : String
deriving DecidableEq

/-- Closing a nonempty block `s :: st'` at end instant `endSec`;
`withT` selects between the two `SUMMARY` formats. -/
def closeBlock (T : ℚ) (withT : Bool) (s : Forecast) (st' : List Forecast)
    (endSec : Int) : Event :=
  { members := s :: st', startDT := getDT s, endSec := endSec,
    summary := if withT then summaryTimes T (getDT s) endSec else summaryNoTimes T }

/-- The block-scanning loop of `create_gust_calendar` (lines 144-339), as a
function of the remaining forecasts and the open accumulator `current_block`:
* an entry with an absent `datetime` key (line 157) is skipped; an open block
  is force-closed ending at `last member + interval`, with the times-free
  `SUMMARY` (line 190);
* an entry whose `datetime` fails `strptime` (line 203) is skipped the same
  way but with the timed `SUMMARY` (line 237);
* an entry with `gust > threshold` is appended to the block (line 250);
* otherwise a disqualifying entry closes an open block, the end being that
  entry's own timestamp (line 259);
* at end of input an open block is closed at `last member + interval`
  (lines 301-306). -/
def runBlocks (T : ℚ) (iv : Int) : List Forecast → List Forecast → List Event
  | [], [] => []
  | [], s :: st' => [closeBlock T true s st' (toSec (getDT (lastOf s st')) + iv)]
  | f :: rest, st =>
    match f.datetime with
    | TimeField.missing =>
      match st with
      | [] => runBlocks T iv rest []
      | s :: st' =>
          closeBlock T false s st' (toSec (getDT (lastOf s st')) + iv) ::
            runBlocks T iv rest []
    | TimeField.malformed =>
      match st with
      | [] => runBlocks T iv rest []
      | s :: st' =>
          closeBlock T true s st' (toSec (getDT (lastOf s st')) + iv) ::
            runBlocks T iv rest []
    | TimeField.good d =>
      if over T f then runBlocks T iv rest (st ++ [f])
      else
        match st with
        | [] => runBlocks T iv rest []
        | s :: st' => closeBlock T true s st' (toSec d) :: runBlocks T iv rest []

/-- The sampling interval (lines 129-141): the delta of the first two
entries' timestamps when both parse and the delta is positive, else one
hour (3600 s); also one hour when there are fewer than two entries. -/
def computeInterval : List Forecast → Int
  | f0 :: f1 :: _ =>
      match f0.datetime, f1.datetime with
      | TimeField.good d0, TimeField.good d1 =>
          let iv := toSec d1 - toSec d0
          if iv ≤ 0 then 3600 else iv
      | _, _ => 3600
  | _ => 3600

/-- The events of one invocation on a forecast list. -/
def calendarEvents (fs : List Forecast) (T : ℚ) : List Event :=
  runBlocks T (computeInterval fs) fs []

/-- One line of the event `DESCRIPTION` (`format_ical_description_line`):
local clock time (UTC instant shifted by the invocation's resolved timezone
offset `off`, in seconds), speed to one decimal, gusts to one decimal when
present, cardinal direction; then iCalendar-escaped. -/
def descLine (off : Int) (f : Forecast) : String :=
  escapeICal
    (hhmmOfSec (toSec (getDT f) + off) ++ ": Wind: " ++ fmt1 (f.speed.getD 0) ++
      " kt" ++
      (match f.gust with
       | none => ""
       | some g => ", Gusts: " ++ fmt1 g ++ " kt") ++
      ", Dir: " ++ degreesToCardinal f.dir)

/-- The `DESCRIPTION` value: member lines joined with the literal
two-character sequence backslash-n. -/
def description (off : Int) (members : List Forecast) : String :=
  String.intercalate ("\\n") (members.map (descLine off))

/-- The event `UID` (lines 281, 328): block-start timestamp to second
precision, latitude and longitude to three decimals, fixed suffix. -/
def uid (dt : DT) (lat lon : ℚ) : String :=
  formatDT dt ++ "-" ++ format3 lat ++ "-" ++ format3 lon ++ "@gustcalendar.local"

/-- The lines of one `VEVENT` (lines 284-294 and the parallel emission
sites), in source order. -/
def renderEvent (lat lon : ℚ) (off : Int) (now : String) (ev : Event) :
    List String :=
  ["BEGIN:VEVENT",
   "UID:" ++ uid ev.startDT lat lon,
   "DTSTAMP:" ++ now,
   "DTSTART:" ++ (formatDT ev.startDT ++ "Z"),
   "DTEND:" ++ (formatDT (dtOfSec ev.endSec) ++ "Z"),
   "SUMMARY:" ++ ev.summary,
   "LOCATION:" ++ (format3 lat ++ "," ++ format3 lon),
   "DESCRIPTION:" ++ description off ev.members,
   "END:VEVENT"]

/-- The calendar header (lines 109-112). -/
def headerLines : List String :=
  ["BEGIN:VCALENDAR", "VERSION:2.0", "PRODID:-//project7III//WindCal//EN",
   "CALSCALE:GREGORIAN"]

/-- All lines of the produced calendar document for one invocation. -/
def buildCalendar (fs : List Forecast) (T : ℚ) (lat lon : ℚ) (off : Int)
    (now : String) : List String :=
  (headerLines ++ ((calendarEvents fs T).map (renderEvent lat lon off now)).flatten)
    ++ ["END:VCALENDAR"]

/-- The text written to the `.ics` file: lines joined by newline (line 354). -/
def icsText (lines : List String) : String := String.intercalate ("\n") lines

/-- The parsed input JSON, to the extent `create_gust_calendar` reads it:
`location` is `none` when the `location`/`latitude`/`longitude` keys are
missing (the `KeyError` branch of line 85), `forecasts` is `none` when the
key is missing or not a list (line 118). -/
structure InputData where
  location : Option (ℚ × ℚ)
  forecasts : Option (List Forecast)

/-- Outcome of reading the input file (lines 68-79): absent file, undecodable
JSON, or parsed data. -/
inductive ReadResult where
  | notFound : ReadResult
  | badJson : ReadResult
  | ok : InputData → ReadResult

/-- `create_gust_calendar` up to (but not including) the final file write:
`none` models the early `return None` paths (file not found, JSON decode
error, missing location keys); otherwise the output filename and the full
document lines. -/
def create_gust_calendar (input : ReadResult) (T : ℚ) (off : Int)
    (now : String) : Option (String × List String) :=
  match input with
  | ReadResult.notFound => none
  | ReadResult.badJson => none
  | ReadResult.ok data =>
    match data.location with
    | none => none
    | some (lat, lon) =>
        some ("lat" ++ format3 lat ++ "lon" ++ format3 lon ++ "kn" ++
                toString (pyInt T) ++ ".ics",
              buildCalendar (data.forecasts.getD []) T lat lon off now)

/-- The destination file's visible contents during the commit step (lines
352-354), modelled from Python file semantics: `open(filename, 'w')`
truncates the destination to empty immediately, then `f.write` produces the
full text. `none` would mean "no artifact"; each list element is a state in
which an `IOError` can strike (the code catches it, warns and returns `None`,
but the file of the moment remains on disk). -/
def writeVisibleStates (content : String) : List (Option String) :=
  [some "", some content]

/-- Structural completeness of a calendar document given as lines. -/
def isCompleteCalendar (lines : List String) : Prop :=
  lines.head? = some ("BEGIN:VCALENDAR") ∧ lines.getLast? = some ("END:VCALENDAR")

/-- Whether a raw text begins like a calendar document at all. -/
def textStartsCalendar (s : String) : Bool :=
  s.data.take 15 == ("BEGIN:VCALENDAR").data

/-- `DTSTAMP` replacement: rewrites any line carrying the generation stamp to
carry `now2` instead, leaving every other line unchanged. -/
def stampReplace (now2 : String) (l : String) : String :=
  if l.data.take 8 = ("DTSTAMP:").data then "DTSTAMP:" ++ now2 else l

/-- Spec-side characterisation (written from the specification's wording, for
comparison with what `runBlocks` emits): `run` is a maximal contiguous run of
entries satisfying `p` inside `fs`, starting at index `i` — every member
satisfies `p`, the entry just before the run (if any) does not, and the entry
at the run's closing index (if any) does not. -/
def MaxRunAt (p : Forecast → Bool) (fs run : List Forecast) (i : Nat) : Prop :=
  run ≠ [] ∧
  (fs.drop i).take run.length = run ∧
  (∀ f ∈ run, p f = true) ∧
  (i = 0 ∨ ∃ g, (fs.drop (i - 1)).head? = some g ∧ p g = false) ∧
  ((fs.drop (i + run.length)).head? = none ∨
    ∃ g, (fs.drop (i + run.length)).head? = some g ∧ p g = false)

/-- 2025-01-01 06:00:00, 07:00:00, 08:00:00 — concrete timestamps used by the
concrete check theorems. -/
def dt6 : DT := ⟨2025, 1, 1, 6, 0, 0⟩

def dt7 : DT := ⟨2025, 1, 1, 7, 0, 0⟩

def dt8 : DT := ⟨2025, 1, 1, 8, 0, 0⟩

/-- A forecast entry with a parsed timestamp and a reported gust. -/
def mkF (d : DT) (g : ℚ) : Forecast := ⟨TimeField.good d, some g, some g, none⟩

/-- Scenario A of the specification: two consecutive hourly samples, both
over threshold. -/
def scenA : List Forecast := [mkF dt6 30, mkF dt7 35]

/-- Scenario B of the specification: under, over, under. -/
def scenB : List Forecast := [mkF dt6 10, mkF dt7 40, mkF dt8 10]

/-- An entry whose `wind_gust_kt` key is absent. -/
def noGustF : Forecast := ⟨TimeField.good dt6, none, none, none⟩

/-- An entry whose `datetime` key is absent. -/
def missingF : Forecast := ⟨TimeField.missing, some 40, none, none⟩

/-- The second counts of the entries whose timestamps parse, in sequence
order. -/
def goodTimes (fs : List Forecast) : List Int :=
  fs.filterMap fun f =>
    match f.datetime with
    | TimeField.good d => some (toSec d)
    | _ => none

/-!  Helper lemmas about the scanning loop. -/

/-- `current_block[-1]` is the head or one of the tail members. -/
theorem lastOf_mem (s : Forecast) (st' : List Forecast) :
    lastOf s st' = s ∨ lastOf s st' ∈ st' := by
  induction st' generalizing s with
  | nil => exact Or.inl rfl
  | cons t ts ih =>
    rcases ih t with h | h
    · exact Or.inr (by simp [lastOf, h])
    · refine Or.inr ?_
      simp only [lastOf, List.mem_cons]
      exact Or.inr h

/-- Every member of an emitted block either was already in the accumulator or
passed the (strict) threshold test when it was appended. -/
theorem runBlocks_members (T : ℚ) (iv : Int) :
    ∀ (fs st : List Forecast), ∀ ev ∈ runBlocks T iv fs st,
      ∀ f ∈ ev.members, f ∈ st ∨ over T f = true := by
  intro fs
  induction fs with
  | nil =>
    intro st ev hev f hf
    cases st with
    | nil => simp [runBlocks] at hev
    | cons s st' =>
      simp [runBlocks] at hev
      subst hev
      exact Or.inl hf
  | cons x rest ih =>
    intro st ev hev f hf
    have tailCase : ev ∈ runBlocks T iv rest [] → f ∈ st ∨ over T f = true := by
      intro h
      rcases ih [] ev h f hf with h2 | h2
      · simp at h2
      · exact Or.inr h2
    cases hdx : x.datetime with
    | missing =>
      cases st with
      | nil =>
        simp only [runBlocks, hdx] at hev
        exact tailCase hev
      | cons s st' =>
        simp only [runBlocks, hdx, List.mem_cons] at hev
        rcases hev with hev | hev
        · subst hev; exact Or.inl hf
        · exact tailCase hev
    | malformed =>
      cases st with
      | nil =>
        simp only [runBlocks, hdx] at hev
        exact tailCase hev
      | cons s st' =>
        simp only [runBlocks, hdx, List.mem_cons] at hev
        rcases hev with hev | hev
        · subst hev; exact Or.inl hf
        · exact tailCase hev
    | good d =>
      by_cases hov : over T x = true
      · simp only [runBlocks, hdx, hov, if_pos] at hev
        rcases ih (st ++ [x]) ev hev f hf with h | h
        · rcases List.mem_append.1 h with h | h
          · exact Or.inl h
          · simp at h; subst h; exact Or.inr hov
        · exact Or.inr h
      · rw [Bool.not_eq_true] at hov
        cases st with
        | nil =>
          simp only [runBlocks, hdx, hov, Bool.false_eq_true, if_false] at hev
          exact tailCase hev
        | cons s st' =>
          simp only [runBlocks, hdx, hov, Bool.false_eq_true, if_false,
            List.mem_cons] at hev
          rcases hev with hev | hev
          · subst hev; exact Or.inl hf
          · exact tailCase hev

/-- Every closing path but the missing-`datetime` force-close stamps the
event with the timed `SUMMARY`, built from the event's own start and end. -/
theorem runBlocks_summary (T : ℚ) (iv : Int) :
    ∀ (fs st : List Forecast), (∀ f ∈ fs, f.datetime ≠ TimeField.missing) →
      ∀ ev ∈ runBlocks T iv fs st,
        ev.summary = summaryTimes T ev.startDT ev.endSec := by
  intro fs
  induction fs with
  | nil =>
    intro st hm ev hev
    cases st with
    | nil => simp [runBlocks] at hev
    | cons s st' =>
      simp [runBlocks] at hev
      subst hev
      simp [closeBlock]
  | cons x rest ih =>
    intro st hm ev hev
    have hmx : x.datetime ≠ TimeField.missing := hm x (by simp)
    have hmr : ∀ f ∈ rest, f.datetime ≠ TimeField.missing := by
      intro f hf; exact hm f (by simp [hf])
    cases hdx : x.datetime with
    | missing => exact absurd hdx hmx
    | malformed =>
      cases st with
      | nil =>
        simp only [runBlocks, hdx] at hev
        exact ih [] hmr ev hev
      | cons s st' =>
        simp only [runBlocks, hdx, List.mem_cons] at hev
        rcases hev with hev | hev
        · subst hev; simp [closeBlock]
        · exact ih [] hmr ev hev
    | good d =>
      by_cases hov : over T x = true
      · simp only [runBlocks, hdx, hov, if_pos] at hev
        exact ih (st ++ [x]) hmr ev hev
      · rw [Bool.not_eq_true] at hov
        cases st with
        | nil =>
          simp only [runBlocks, hdx, hov, Bool.false_eq_true, if_false] at hev
          exact ih [] hmr ev hev
        | cons s st' =>
          simp only [runBlocks, hdx, hov, Bool.false_eq_true, if_false,
            List.mem_cons] at hev
          rcases hev with hev | hev
          · subst hev; simp [closeBlock]
          · exact ih [] hmr ev hev

/-- The computed sampling interval is always positive. -/
theorem computeInterval_pos (fs : List Forecast) : 0 < computeInterval fs := by
  match fs with
  | [] => simp [computeInterval]
  | [f] => simp [computeInterval]
  | f0 :: f1 :: r =>
    simp only [computeInterval]
    match f0.datetime, f1.datetime with
    | TimeField.missing, _ => simp
    | TimeField.malformed, _ => simp
    | TimeField.good d0, TimeField.missing => simp
    | TimeField.good d0, TimeField.malformed => simp
    | TimeField.good d0, TimeField.good d1 =>
      simp only
      split
      · simp
      · omega

/-!  Concrete behaviour checks (specification scenarios, not claim-bound). -/

/-- Scenario B end to end: under/over/under with threshold 25 gives exactly
one block, ending at the disqualifying sample's own timestamp. -/
theorem scenB_check :
    calendarEvents scenB 25 = [closeBlock 25 true (mkF dt7 40) [] (toSec dt8)] := by
  decide

/-- Scenario A end to end: both samples over threshold; one block from the
first sample to the last sample plus the inferred one-hour interval. -/
theorem scenA_check :
    calendarEvents scenA 25 =
      [closeBlock 25 true (mkF dt6 30) [mkF dt7 35] (toSec dt7 + 3600)] := by
  decide

/-- Scenario E: 349 degrees renders `N`, 22 degrees renders `NNE`. -/
theorem scenE_check :
    degreesToCardinal (some 349) = "N" ∧ degreesToCardinal (some 22) = "NNE" := by
  constructor <;> with_unfolding_all decide

/-- `dtOfSec` inverts `toSec` on a concrete instant (sanity of the calendar
arithmetic used for `DTEND` rendering). -/
theorem dtOfSec_toSec_check : dtOfSec (toSec dt7 + 3600) = dt8 := by decide

/-- `strftime('%H:%M')` on a parsed timestamp agrees with the time-of-day
extracted from its second count (sanity of the uniform summary rendering). -/
theorem hhmmOfSec_toSec (d : DT) (h : d.Valid) :
    hhmmOfSec (toSec d) = hhmmOfDT d := by
  obtain ⟨-, -, -, -, -, -, hh, hm, hs⟩ := h
  have e86400 : toSec d % 86400 =
      (d.hour : Int) * 3600 + (d.minute : Int) * 60 + (d.second : Int) := by
    unfold toSec
    omega
  unfold hhmmOfSec hhmmOfDT
  simp only [e86400]
  have e1 : (((d.hour : Int) * 3600 + (d.minute : Int) * 60 + (d.second : Int)) /
      3600).toNat = d.hour := by omega
  have e2 : ((((d.hour : Int) * 3600 + (d.minute : Int) * 60 + (d.second : Int)) %
      3600) / 60).toNat = d.minute := by omega
  rw [e1, e2]

/-!  C2: a disqualifying sample closes an open block at its own timestamp. -/

/-- C2: when a below-threshold entry with a parsed timestamp `d` is reached
while a block is open, the block is closed as an event whose end instant is
exactly `toSec d` — the disqualifying sample's own timestamp, not the last
member's timestamp nor the last member's timestamp plus the interval — and
scanning continues on the remaining entries with an empty accumulator. -/
theorem c2_close_at_disqualifier (T : ℚ) (iv : Int) (f : Forecast) (d : DT)
    (rest : List Forecast) (s : Forecast) (st' : List Forecast)
    (hfd : f.datetime = TimeField.good d) (hnot : over T f = false) :
    runBlocks T iv (f :: rest) (s :: st') =
      closeBlock T true s st' (toSec d) :: runBlocks T iv rest [] := by
  simp [runBlocks, hfd, hnot]

/-- C2 witness: the theorem applied at Scenario B's third sample (gust 10,
threshold 25) with the block `[t1]` open. -/
theorem c2_witness :
    runBlocks 25 3600 [mkF dt8 10] [mkF dt7 40] =
      closeBlock 25 true (mkF dt7 40) [] (toSec dt8) :: runBlocks 25 3600 [] [] :=
  c2_close_at_disqualifier 25 3600 (mkF dt8 10) dt8 [] (mkF dt7 40) [] rfl
    (by decide)

/-!  C3: end-of-sequence close and interval derivation. -/

/-- C3: a block still open when the input ends is emitted with end instant
`last member's timestamp + interval`; the interval is one hour when the
sequence has fewer than two entries, the delta of the first two entries'
timestamps when both parse and the delta is positive, and one hour again when
that delta is non-positive. -/
theorem c3_eos_and_interval (T : ℚ) (iv : Int) :
    (∀ (s : Forecast) (st' : List Forecast),
        runBlocks T iv [] (s :: st') =
          [closeBlock T true s st' (toSec (getDT (lastOf s st')) + iv)]) ∧
    (∀ fs : List Forecast, fs.length ≤ 1 → computeInterval fs = 3600) ∧
    (∀ (f0 f1 : Forecast) (r : List Forecast) (d0 d1 : DT),
        f0.datetime = TimeField.good d0 → f1.datetime = TimeField.good d1 →
        toSec d1 - toSec d0 ≤ 0 → computeInterval (f0 :: f1 :: r) = 3600) ∧
    (∀ (f0 f1 : Forecast) (r : List Forecast) (d0 d1 : DT),
        f0.datetime = TimeField.good d0 → f1.datetime = TimeField.good d1 →
        0 < toSec d1 - toSec d0 →
        computeInterval (f0 :: f1 :: r) = toSec d1 - toSec d0) := by
  refine ⟨fun s st' => by simp [runBlocks], fun fs h => ?_, ?_, ?_⟩
  · match fs with
    | [] => simp [computeInterval]
    | [f] => simp [computeInterval]
    | f0 :: f1 :: r => simp at h
  · intro f0 f1 r d0 d1 h0 h1 hle
    simp [computeInterval, h0, h1, hle]
  · intro f0 f1 r d0 d1 h0 h1 hpos
    have : ¬ (toSec d1 - toSec d0 ≤ 0) := by omega
    simp [computeInterval, h0, h1, this]

/-- C3 witness: the end-of-sequence rule applied to the open block of
Scenario A, the short-sequence fallback, a non-positive-delta fallback and a
positive delta, all at concrete inputs. -/
theorem c3_witness :
    runBlocks 25 3600 [] [mkF dt6 30, mkF dt7 35] =
      [closeBlock 25 true (mkF dt6 30) [mkF dt7 35] (toSec dt7 + 3600)] ∧
    computeInterval [mkF dt6 30] = 3600 ∧
    computeInterval [mkF dt7 30, mkF dt6 30] = 3600 ∧
    computeInterval [mkF dt6 30, mkF dt8 30] = toSec dt8 - toSec dt6 := by
  refine ⟨?_, (c3_eos_and_interval 25 3600).2.1 _ (by decide),
    (c3_eos_and_interval 25 3600).2.2.1 _ _ _ dt7 dt6 rfl rfl (by decide),
    (c3_eos_and_interval 25 3600).2.2.2 _ _ _ dt6 dt8 rfl rfl (by decide)⟩
  have h := (c3_eos_and_interval 25 3600).1 (mkF dt6 30) [mkF dt7 35]
  simpa using h

/-!  C4: entries with an absent `wind_gust_kt` key. -/

/-- C4 counterexample: with the negative threshold `-1`, a single entry whose
`wind_gust_kt` key is absent (treated as gust `0`, and `0 > -1`) does start a
block, so "never triggers or extends a block — including when the threshold
is 0 or negative" fails for negative thresholds. -/
theorem c4_counterexample :
    runBlocks (-1) 3600 [noGustF] [] =
      [closeBlock (-1) true noGustF [] (toSec dt6 + 3600)] ∧
    noGustF ∈ (closeBlock (-1) true noGustF [] (toSec dt6 + 3600)).members := by
  constructor <;> decide

/-- C4 (amended): a sample with `wind_gust_kt` absent is read as gust `0`
without error; for every non-negative threshold it never becomes a member of
any block (the strict test `0 > T` fails). For negative thresholds it does
qualify, since `0 > T` then holds. -/
theorem c4_no_gust_never_in_block (T : ℚ) (iv : Int) (fs : List Forecast)
    (hT : 0 ≤ T) (ev : Event) (hev : ev ∈ runBlocks T iv fs [])
    (f : Forecast) (hf : f ∈ ev.members) : f.gust ≠ none := by
  intro hg
  rcases runBlocks_members T iv fs [] ev hev f hf with h | h
  · simp at h
  · rw [over, hg] at h
    simp only [Option.getD_none, decide_eq_true_eq] at h
    exact absurd (lt_of_le_of_lt hT h) (lt_irrefl 0)

/-- C4 witness: the amended theorem applied at threshold `0` to a block of
Scenario B's qualifying sample. -/
theorem c4_witness : (mkF dt7 40).gust ≠ none :=
  c4_no_gust_never_in_block 25 3600 scenB (by norm_num)
    (closeBlock 25 true (mkF dt7 40) [] (toSec dt8)) (by decide)
    (mkF dt7 40) (by decide)

/-!  C5: malformed entries are skipped and force-close an open block. -/

/-- C5: an entry with a missing or unparseable timestamp never aborts the
scan: it is skipped; with an open block `s :: st'` the block is emitted with
end instant `last good member's timestamp + interval` (the end-of-sequence
rule), and scanning resumes on the remaining entries with an empty
accumulator; with no open block the entry is simply skipped. -/
theorem c5_malformed_skip (T : ℚ) (iv : Int) (f : Forecast)
    (hf : f.datetime = TimeField.missing ∨ f.datetime = TimeField.malformed)
    (rest : List Forecast) (s : Forecast) (st' : List Forecast) :
    (∃ b : Bool, runBlocks T iv (f :: rest) (s :: st') =
        closeBlock T b s st' (toSec (getDT (lastOf s st')) + iv) ::
          runBlocks T iv rest []) ∧
    runBlocks T iv (f :: rest) [] = runBlocks T iv rest [] := by
  rcases hf with h | h
  · exact ⟨⟨false, by simp [runBlocks, h]⟩, by simp [runBlocks, h]⟩
  · exact ⟨⟨true, by simp [runBlocks, h]⟩, by simp [runBlocks, h]⟩

/-- C5 witness: the theorem applied to a missing-`datetime` entry arriving
while the Scenario A block is open. -/
theorem c5_witness :
    (∃ b : Bool, runBlocks 25 3600 [missingF] [mkF dt6 30, mkF dt7 35] =
        closeBlock 25 b (mkF dt6 30) [mkF dt7 35]
          (toSec (getDT (lastOf (mkF dt6 30) [mkF dt7 35])) + 3600) ::
          runBlocks 25 3600 [] []) ∧
    runBlocks 25 3600 [missingF] [] = runBlocks 25 3600 [] [] :=
  c5_malformed_skip 25 3600 missingF (Or.inl rfl) [] (mkF dt6 30) [mkF dt7 35]

/-!  C10: the SUMMARY of emitted events. -/

/-- C10 counterexample: a block force-closed by a missing-`datetime` entry is
emitted with `SUMMARY` text `Gusts > 25 kt` — the threshold only, without the
`HH:MM - HH:MM` UTC time range that every other closing path includes. -/
theorem c10_counterexample :
    (runBlocks 25 3600 [mkF dt6 40, missingF] []).map Event.summary =
      ["Gusts > 25 kt"] ∧
    summaryNoTimes 25 ≠
      summaryTimes 25 dt6 (toSec dt6 + 3600) := by
  constructor <;> decide

/-- C10 (amended): for every run whose entries all carry a `datetime` key
(parsed or not), every emitted event's `SUMMARY` is the timed format —
threshold plus the UTC start and end times of day; only a block force-closed
by a missing-`datetime` entry receives the threshold-only `SUMMARY`. -/
theorem c10_summary_times (T : ℚ) (iv : Int) (fs : List Forecast)
    (hm : ∀ f ∈ fs, f.datetime ≠ TimeField.missing)
    (ev : Event) (hev : ev ∈ runBlocks T iv fs []) :
    ev.summary = summaryTimes T ev.startDT ev.endSec :=
  runBlocks_summary T iv fs [] hm ev hev

/-!  C6: completeness of the committed document. -/

/-- C6 (amended): every pre-write failure (input not found, undecodable JSON,
missing location keys) yields no output at all, and every run that reaches
the write produces one structurally complete `VCALENDAR` document (the
header-to-`END:VCALENDAR` span, with zero or more `VEVENT`s in between); the
write itself, however, is not atomic — see the counterexample. -/
theorem c6_complete_or_none (input : ReadResult) (T : ℚ) (off : Int)
    (now : String) :
    create_gust_calendar input T off now = none ∨
    ∃ fn lines, create_gust_calendar input T off now = some (fn, lines) ∧
      isCompleteCalendar lines := by
  cases input with
  | notFound => exact Or.inl rfl
  | badJson => exact Or.inl rfl
  | ok data =>
    cases hl : data.location with
    | none => exact Or.inl (by simp [create_gust_calendar, hl])
    | some p =>
      obtain ⟨lat, lon⟩ := p
      refine Or.inr ⟨"lat" ++ format3 lat ++ "lon" ++ format3 lon ++ "kn" ++
          toString (pyInt T) ++ ".ics",
        buildCalendar (data.forecasts.getD []) T lat lon off now,
        by simp [create_gust_calendar, hl], ?_, ?_⟩
      · simp [buildCalendar, headerLines]
      · simp [buildCalendar]

/-- C6 counterexample: the commit is a truncating in-place write
(`open(filename, 'w')` then `f.write`), so the first visible state of the
destination during a (nonempty, otherwise successful) run is an existing but
empty file: an `IOError` raised by the write at that point (error kind
*output-write-failure*) leaves an artifact on disk that is neither absent
nor a complete `VCALENDAR` document, contradicting "either a complete,
syntactically valid VCALENDAR document is written, or no output artifact is
produced at all". -/
theorem c6_counterexample :
    (writeVisibleStates (icsText (buildCalendar [] 25 1 1 0 ("X")))).head? =
      some (some "") ∧
    textStartsCalendar "" = false ∧
    icsText (buildCalendar [] 25 1 1 0 ("X")) ≠ "" := by
  refine ⟨rfl, rfl, ?_⟩
  with_unfolding_all decide

/-!  C7: determinism of the output across runs. -/

/-- Lines whose first eight characters are not `DTSTAMP:` pass through the
stamp replacement unchanged. -/
theorem stampReplace_ne_of_take (now2 : String) (l : String)
    (h : l.data.take 8 ≠ ("DTSTAMP:").data) : stampReplace now2 l = l := by
  unfold stampReplace
  rw [if_neg h]

/-- The `DTSTAMP` line itself is rewritten to the second run's stamp. -/
theorem stampReplace_stamp (now2 s : String) :
    stampReplace now2 ("DTSTAMP:" ++ s) = "DTSTAMP:" ++ now2 := by
  unfold stampReplace
  rw [if_pos]
  rw [String.data_append, List.take_append_eq_append_take]
  simp

/-- Replacing stamps inside one rendered event swaps its `DTSTAMP` line and
nothing else. -/
theorem map_stampReplace_render (lat lon : ℚ) (off : Int)
    (now1 now2 : String) (ev : Event) :
    (renderEvent lat lon off now1 ev).map (stampReplace now2) =
      renderEvent lat lon off now2 ev := by
  unfold renderEvent
  simp only [List.map_cons, List.map_nil]
  rw [stampReplace_stamp]
  rw [stampReplace_ne_of_take _ _ (by decide)]
  rw [stampReplace_ne_of_take _ ("UID:" ++ uid ev.startDT lat lon) (by
    rw [String.data_append, List.take_append_eq_append_take]
    intro h; simp at h)]
  rw [stampReplace_ne_of_take _ ("DTSTART:" ++ (formatDT ev.startDT ++ "Z")) (by
    rw [String.data_append, List.take_append_eq_append_take]
    intro h; simp at h)]
  rw [stampReplace_ne_of_take _ ("DTEND:" ++ (formatDT (dtOfSec ev.endSec) ++ "Z")) (by
    rw [String.data_append, List.take_append_eq_append_take]
    intro h; simp at h)]
  rw [stampReplace_ne_of_take _ ("SUMMARY:" ++ ev.summary) (by
    rw [String.data_append, List.take_append_eq_append_take]
    intro h; simp at h)]
  rw [stampReplace_ne_of_take _
    ("LOCATION:" ++ (format3 lat ++ "," ++ format3 lon)) (by
    rw [String.data_append, List.take_append_eq_append_take]
    intro h; simp at h)]
  rw [stampReplace_ne_of_take _
    ("DESCRIPTION:" ++ description off ev.members) (by
    rw [String.data_append, List.take_append_eq_append_take]
    intro h; simp at h)]
  rw [stampReplace_ne_of_take _ ("END:VEVENT") (by decide)]

/-- C7 (amended): two runs on the same forecasts, threshold, location and
timezone differ at most in their `DTSTAMP` lines, which record each run's
generation wall-clock time: rewriting the first run's stamp lines to the
second run's stamp gives the second run's output byte for byte. In
particular, with the generation instant held fixed the output is
byte-identical (UIDs and property order are deterministic). -/
theorem c7_stamp_only_difference (fs : List Forecast) (T lat lon : ℚ)
    (off : Int) (now1 now2 : String) :
    (buildCalendar fs T lat lon off now1).map (stampReplace now2) =
      buildCalendar fs T lat lon off now2 := by
  unfold buildCalendar
  rw [List.map_append, List.map_append, List.map_flatten, List.map_map]
  have hh : headerLines.map (stampReplace now2) = headerLines := by
    simp only [headerLines, List.map_cons, List.map_nil]
    rw [stampReplace_ne_of_take _ _ (by decide),
      stampReplace_ne_of_take _ _ (by decide),
      stampReplace_ne_of_take _ _ (by decide),
      stampReplace_ne_of_take _ _ (by decide)]
  have hf : List.map (stampReplace now2) ["END:VCALENDAR"] = ["END:VCALENDAR"] := by
    simp only [List.map_cons, List.map_nil]
    rw [stampReplace_ne_of_take _ _ (by decide)]
  have hev : (List.map (stampReplace now2) ∘ renderEvent lat lon off now1) =
      renderEvent lat lon off now2 := by
    funext ev
    exact map_stampReplace_render lat lon off now1 now2 ev
  rw [hh, hf, hev]

/-- C7 counterexample: the `DTSTAMP` property records `datetime.utcnow()` of
the run (line 115), so two runs of the synthesizer at different wall-clock
instants on the identical `(S, T)` produce different bytes — byte-identical
output fails as stated. -/
theorem c7_counterexample :
    buildCalendar scenB 25 1 1 0 ("20250101T000000Z") ≠
      buildCalendar scenB 25 1 1 0 ("20250101T000001Z") := by
  with_unfolding_all decide

/-!  C9: determinism and injectivity of the event UID. -/

/-- Distinct decimal digits render as distinct characters. -/
theorem digit_inj : ∀ a < 10, ∀ b < 10, digit a = digit b → a = b := by decide

/-- `%02d` is injective below 100. -/
theorem pad2L_inj (n m : Nat) (hn : n < 100) (hm : m < 100)
    (h : pad2L n = pad2L m) : n = m := by
  unfold pad2L at h
  injection h with h1 h2
  injection h2 with h2 _hn
  have e1 := digit_inj _ (by omega) _ (by omega) h1
  have e2 := digit_inj _ (by omega) _ (by omega) h2
  omega

/-- `%04d` is injective below 10000. -/
theorem pad4L_inj (n m : Nat) (hn : n < 10000) (hm : m < 10000)
    (h : pad4L n = pad4L m) : n = m := by
  unfold pad4L at h
  injection h with h1 h2
  injection h2 with h2 h3
  injection h3 with h3 h4
  injection h4 with h4 _hn
  have e1 := digit_inj _ (by omega) _ (by omega) h1
  have e2 := digit_inj _ (by omega) _ (by omega) h2
  have e3 := digit_inj _ (by omega) _ (by omega) h3
  have e4 := digit_inj _ (by omega) _ (by omega) h4
  omega

/-- The `%Y%m%dT%H%M%S` character rendering has fixed width 15. -/
theorem dtChars_length (d : DT) : (dtChars d).length = 15 := rfl

/-- The `%Y%m%dT%H%M%S` rendering is injective on strptime-valid
timestamps. -/
theorem dtChars_inj (d1 d2 : DT) (h1 : d1.Valid) (h2 : d2.Valid)
    (h : dtChars d1 = dtChars d2) : d1 = d2 := by
  obtain ⟨hy1, hy1b, hmo1, hmo1b, hd1, hd1b, hh1, hmi1, hs1⟩ := h1
  obtain ⟨hy2, hy2b, hmo2, hmo2b, hd2, hd2b, hh2, hmi2, hs2⟩ := h2
  unfold dtChars at h
  have l2 : ∀ n : Nat, (pad2L n).length = 2 := fun _ => rfl
  have l4 : ∀ n : Nat, (pad4L n).length = 4 := fun _ => rfl
  obtain ⟨h6, hs⟩ := List.append_inj h (by simp [l2, l4])
  obtain ⟨h5, hmi⟩ := List.append_inj h6 (by simp [l2, l4])
  obtain ⟨h4, hh⟩ := List.append_inj h5 (by simp [l2, l4])
  obtain ⟨h3, -⟩ := List.append_inj h4 (by simp [l2, l4])
  obtain ⟨h2c, hd⟩ := List.append_inj h3 (by simp [l2, l4])
  obtain ⟨hy, hmo⟩ := List.append_inj h2c (by simp [l4])
  have ey := pad4L_inj _ _ (by omega) (by omega) hy
  have emo := pad2L_inj _ _ (by omega) (by omega) hmo
  have ed := pad2L_inj _ _ (by omega) (by omega) hd
  have eh := pad2L_inj _ _ (by omega) (by omega) hh
  have emi := pad2L_inj _ _ (by omega) (by omega) hmi
  have es := pad2L_inj _ _ (by omega) (by omega) hs
  cases d1; cases d2
  simp_all

/-- `formatDT` reads back to its character list. -/
theorem data_formatDT (d : DT) : (formatDT d).data = dtChars d := rfl

/-- C9 counterexample: two distinct longitudes that agree after rounding to
three decimals (1.0001 and 1.0002) produce the identical UID for the same
block start — "two blocks that belong to different locations always get
different uids" fails. -/
theorem c9_counterexample :
    (10001/10000 : ℚ) ≠ (10002/10000 : ℚ) ∧
    uid dt6 (10001/10000 : ℚ) 7 = uid dt6 (10002/10000 : ℚ) 7 := by
  constructor <;> with_unfolding_all decide

/-- C9 (amended): the UID is a deterministic function of the block start (to
second precision) and the 3-decimal-rounded coordinates, and blocks starting
at different instants always get different UIDs; blocks at different
locations, however, collide whenever the coordinates agree after 3-decimal
rounding. This theorem: distinct strptime-valid start timestamps give
distinct UIDs at any fixed location. -/
theorem c9_uid_injective (d1 d2 : DT) (lat lon : ℚ) (h1 : d1.Valid)
    (h2 : d2.Valid) (hne : d1 ≠ d2) : uid d1 lat lon ≠ uid d2 lat lon := by
  intro h
  apply hne
  apply dtChars_inj d1 d2 h1 h2
  have hd := congrArg String.data h
  simp only [uid, String.data_append, data_formatDT, List.append_assoc] at hd
  exact (List.append_inj hd (by rw [dtChars_length, dtChars_length])).1

/-- C9 witness: the amended theorem applied to two distinct concrete
timestamps at a fixed location. -/
theorem c9_witness : uid dt6 1 1 ≠ uid dt7 1 1 :=
  c9_uid_injective dt6 dt7 1 1 (by decide) (by decide) (by decide)

/-- C10 witness: the amended theorem applied to Scenario B's block. -/
theorem c10_witness :
    (closeBlock 25 true (mkF dt7 40) [] (toSec dt8)).summary =
      summaryTimes 25
        (closeBlock 25 true (mkF dt7 40) [] (toSec dt8)).startDT
        (closeBlock 25 true (mkF dt7 40) [] (toSec dt8)).endSec :=
  c10_summary_times 25 (computeInterval scenB) scenB (by decide)
    (closeBlock 25 true (mkF dt7 40) [] (toSec dt8)) (by decide)


/-!  C8: DTSTART precedes DTEND. -/

/-- Loop invariant for the start/end ordering: if the already-accumulated
members' timestamps followed by the remaining parsed timestamps are strictly
increasing, every emitted event starts strictly before it ends. -/
theorem runBlocks_start_lt (T : ℚ) (iv : Int) (hiv : 0 < iv) :
    ∀ (fs st : List Forecast),
      ((st.map fun f => toSec (getDT f)) ++ goodTimes fs).Pairwise (· < ·) →
      ∀ ev ∈ runBlocks T iv fs st, toSec ev.startDT < ev.endSec := by
  intro fs
  induction fs with
  | nil =>
    intro st hp ev hev
    cases st with
    | nil => simp [runBlocks] at hev
    | cons s st' =>
      simp [runBlocks] at hev
      subst hev
      simp only [closeBlock]
      have hpl : ((s :: st').map fun f => toSec (getDT f)).Pairwise (· < ·) := by
        simpa [goodTimes] using hp
      have hle : toSec (getDT s) ≤ toSec (getDT (lastOf s st')) := by
        rcases lastOf_mem s st' with h | h
        · rw [h]
        · simp only [List.map_cons, List.pairwise_cons] at hpl
          exact le_of_lt (hpl.1 _ (List.mem_map_of_mem _ h))
      omega
  | cons x rest ih =>
    intro st hp ev hev
    cases hdx : x.datetime with
    | missing =>
      have hgt : goodTimes (x :: rest) = goodTimes rest := by
        simp [goodTimes, List.filterMap_cons, hdx]
      rw [hgt] at hp
      have hp' : ((List.map (fun f => toSec (getDT f)) []) ++
          goodTimes rest).Pairwise (· < ·) := by
        simpa using (List.pairwise_append.1 hp).2.1
      cases st with
      | nil =>
        simp only [runBlocks, hdx] at hev
        exact ih [] hp' ev hev
      | cons s st' =>
        simp only [runBlocks, hdx, List.mem_cons] at hev
        rcases hev with hev | hev
        · subst hev
          simp only [closeBlock]
          have hpl := (List.pairwise_append.1 hp).1
          have hle : toSec (getDT s) ≤ toSec (getDT (lastOf s st')) := by
            rcases lastOf_mem s st' with h | h
            · rw [h]
            · simp only [List.map_cons, List.pairwise_cons] at hpl
              exact le_of_lt (hpl.1 _ (List.mem_map_of_mem _ h))
          omega
        · exact ih [] hp' ev hev
    | malformed =>
      have hgt : goodTimes (x :: rest) = goodTimes rest := by
        simp [goodTimes, List.filterMap_cons, hdx]
      rw [hgt] at hp
      have hp' : ((List.map (fun f => toSec (getDT f)) []) ++
          goodTimes rest).Pairwise (· < ·) := by
        simpa using (List.pairwise_append.1 hp).2.1
      cases st with
      | nil =>
        simp only [runBlocks, hdx] at hev
        exact ih [] hp' ev hev
      | cons s st' =>
        simp only [runBlocks, hdx, List.mem_cons] at hev
        rcases hev with hev | hev
        · subst hev
          simp only [closeBlock]
          have hpl := (List.pairwise_append.1 hp).1
          have hle : toSec (getDT s) ≤ toSec (getDT (lastOf s st')) := by
            rcases lastOf_mem s st' with h | h
            · rw [h]
            · simp only [List.map_cons, List.pairwise_cons] at hpl
              exact le_of_lt (hpl.1 _ (List.mem_map_of_mem _ h))
          omega
        · exact ih [] hp' ev hev
    | good d =>
      have hgt : goodTimes (x :: rest) = toSec d :: goodTimes rest := by
        simp [goodTimes, List.filterMap_cons, hdx]
      rw [hgt] at hp
      have hgx : getDT x = d := by simp [getDT, hdx]
      by_cases hov : over T x = true
      · simp only [runBlocks, hdx, hov, if_pos] at hev
        apply ih (st ++ [x]) _ ev hev
        rw [List.map_append, List.append_assoc]
        simpa [hgx] using hp
      · rw [Bool.not_eq_true] at hov
        have hp' : ((List.map (fun f => toSec (getDT f)) []) ++
            goodTimes rest).Pairwise (· < ·) := by
          simpa using ((List.pairwise_append.1 hp).2.1).tail
        cases st with
        | nil =>
          simp only [runBlocks, hdx, hov, Bool.false_eq_true, if_false] at hev
          exact ih [] hp' ev hev
        | cons s st' =>
          simp only [runBlocks, hdx, hov, Bool.false_eq_true, if_false,
            List.mem_cons] at hev
          rcases hev with hev | hev
          · subst hev
            simp only [closeBlock]
            exact (List.pairwise_append.1 hp).2.2 _
              (by simp) _ (by simp)
          · exact ih [] hp' ev hev

/-- C8: for a forecast sequence whose parsed timestamps are strictly
increasing, every emitted event's start instant is strictly before its end
instant (hence DTSTART < DTEND in the rendered document). -/
theorem c8_start_lt_end (T : ℚ) (fs : List Forecast)
    (hs : (goodTimes fs).Pairwise (· < ·))
    (ev : Event) (hev : ev ∈ calendarEvents fs T) :
    toSec ev.startDT < ev.endSec :=
  runBlocks_start_lt T (computeInterval fs) (computeInterval_pos fs) fs []
    (by simpa using hs) ev hev

/-- C8 witness: the theorem applied to Scenario B's event. -/
theorem c8_witness :
    toSec (closeBlock 25 true (mkF dt7 40) [] (toSec dt8)).startDT <
      (closeBlock 25 true (mkF dt7 40) [] (toSec dt8)).endSec :=
  c8_start_lt_end 25 scenB (by decide)
    (closeBlock 25 true (mkF dt7 40) [] (toSec dt8)) (by decide)


/-!  C1: blocks are exactly the maximal over-threshold runs. -/

/-- The head of the dropped suffix fails the predicate. -/
theorem head_dropWhile_false (p : Forecast → Bool) (l : List Forecast)
    (y : Forecast) (h : (l.dropWhile p).head? = some y) : p y = false := by
  induction l with
  | nil => simp [List.dropWhile] at h
  | cons a t ih =>
    rw [List.dropWhile_cons] at h
    by_cases hp : p a = true
    · rw [if_pos hp] at h; exact ih h
    · rw [Bool.not_eq_true] at hp
      rw [if_neg (by simp [hp])] at h
      simp at h
      exact h ▸ hp

/-- `takeWhile` is an initial segment of its list. -/
theorem takeWhile_eq_take (p : Forecast → Bool) (l : List Forecast) :
    l.takeWhile p = l.take (l.takeWhile p).length := by
  induction l with
  | nil => simp
  | cons a t ih =>
    by_cases hp : p a = true
    · simp only [List.takeWhile_cons, if_pos hp, List.length_cons,
        List.take_succ_cons]
      exact congrArg (a :: ·) ih
    · rw [Bool.not_eq_true] at hp
      simp [List.takeWhile_cons, hp]

/-- `dropWhile` is the matching final segment. -/
theorem dropWhile_eq_drop (p : Forecast → Bool) (l : List Forecast) :
    l.dropWhile p = l.drop (l.takeWhile p).length := by
  induction l with
  | nil => simp
  | cons a t ih =>
    by_cases hp : p a = true
    · simp only [List.dropWhile_cons, if_pos hp, List.takeWhile_cons,
        List.length_cons, List.drop_succ_cons]
      exact ih
    · rw [Bool.not_eq_true] at hp
      simp [List.dropWhile_cons, List.takeWhile_cons, hp]

/-- While a block `s :: st'` is open and the remaining entries are all
well-formed, the loop closes it exactly at the end of the current
over-threshold run: the emitted event collects the accumulated members plus
the `takeWhile` of the remainder, ends at the first disqualifying entry's
own timestamp (or at `last + interval` when the input runs out), and the
scan continues on the dropped suffix with an empty accumulator. -/
theorem runBlocks_open_run (T : ℚ) (iv : Int) :
    ∀ (xs : List Forecast) (s : Forecast) (st' : List Forecast),
      (∀ f ∈ xs, f.datetime.isGood = true) →
      runBlocks T iv xs (s :: st') =
        closeBlock T true s (st' ++ xs.takeWhile (over T))
          (match (xs.dropWhile (over T)).head? with
           | some g => toSec (getDT g)
           | none =>
               toSec (getDT (lastOf s (st' ++ xs.takeWhile (over T)))) + iv) ::
          runBlocks T iv (xs.dropWhile (over T)) [] := by
  intro xs
  induction xs with
  | nil =>
    intro s st' hgood
    simp [runBlocks]
  | cons x rest ih =>
    intro s st' hgood
    have hgx := hgood x (by simp)
    cases hdx : x.datetime with
    | missing => rw [hdx] at hgx; simp [TimeField.isGood] at hgx
    | malformed => rw [hdx] at hgx; simp [TimeField.isGood] at hgx
    | good d =>
      by_cases hov : over T x = true
      · have e1 : runBlocks T iv (x :: rest) (s :: st') =
            runBlocks T iv rest (s :: (st' ++ [x])) := by
          simp [runBlocks, hdx, hov]
        rw [e1, ih s (st' ++ [x]) (fun f hf => hgood f (by simp [hf]))]
        rw [List.takeWhile_cons, if_pos hov, List.dropWhile_cons, if_pos hov]
        rw [List.append_assoc, List.singleton_append]
      · rw [Bool.not_eq_true] at hov
        have e1 : runBlocks T iv (x :: rest) (s :: st') =
            closeBlock T true s st' (toSec d) :: runBlocks T iv rest [] := by
          simp [runBlocks, hdx, hov]
        have e2 : runBlocks T iv (x :: rest) [] = runBlocks T iv rest [] := by
          simp [runBlocks, hdx, hov]
        rw [e1]
        rw [List.takeWhile_cons, if_neg (by simp [hov]),
          List.dropWhile_cons, if_neg (by simp [hov])]
        rw [e2, List.append_nil]
        have : getDT x = d := by simp [getDT, hdx]
        simp [this]

/-- A maximal run shifts across one extra leading element that either sits
before position zero or fails the predicate. -/
theorem maxRunAt_cons (p : Forecast → Bool) (x : Forecast)
    (xs run : List Forecast) (i : Nat) (h : MaxRunAt p xs run i)
    (hx : i = 0 → p x = false) : MaxRunAt p (x :: xs) run (i + 1) := by
  obtain ⟨hne, htake, hmem, hpred, hafter⟩ := h
  refine ⟨hne, ?_, hmem, ?_, ?_⟩
  · rw [List.drop_succ_cons]; exact htake
  · right
    cases i with
    | zero => exact ⟨x, by simp, hx rfl⟩
    | succ k =>
      rcases hpred with h0 | ⟨g, hg, hpg⟩
      · exact absurd h0 (by omega)
      · refine ⟨g, ?_, hpg⟩
        rw [show k + 1 + 1 - 1 = k + 1 by omega, List.drop_succ_cons]
        rw [show k + 1 - 1 = k by omega] at hg
        exact hg
  · rw [show i + 1 + run.length = (i + run.length) + 1 by omega,
      List.drop_succ_cons]
    exact hafter

/-- A maximal run at a positive index shifts across any prefix. -/
theorem maxRunAt_shift (p : Forecast → Bool) (l2 run : List Forecast)
    (i : Nat) (hi : i ≠ 0) (h : MaxRunAt p l2 run i) :
    ∀ l1 : List Forecast, MaxRunAt p (l1 ++ l2) run (l1.length + i) := by
  intro l1
  induction l1 with
  | nil => simpa using h
  | cons a t ih =>
    have step := maxRunAt_cons p a (t ++ l2) run (t.length + i) ih (by omega)
    rw [List.cons_append, List.length_cons, Nat.add_right_comm]
    exact step

/-- Main induction (on a length bound): on a sequence of well-formed entries,
every event the loop emits from the empty accumulator is a maximal
over-threshold run. -/
theorem runBlocks_maxRun (T : ℚ) (iv : Int) :
    ∀ (n : Nat) (fs : List Forecast), fs.length ≤ n →
      (∀ f ∈ fs, f.datetime.isGood = true) →
      ∀ ev ∈ runBlocks T iv fs [], ∃ i, MaxRunAt (over T) fs ev.members i := by
  intro n
  induction n with
  | zero =>
    intro fs hn hgood ev hev
    have : fs = [] := List.length_eq_zero.1 (Nat.le_zero.1 hn)
    subst this
    simp [runBlocks] at hev
  | succ n ih =>
    intro fs hn hgood ev hev
    cases fs with
    | nil => simp [runBlocks] at hev
    | cons x xs =>
      have hgx := hgood x (by simp)
      have hlen : xs.length ≤ n := by
        rw [List.length_cons] at hn; omega
      cases hdx : x.datetime with
      | missing => rw [hdx] at hgx; simp [TimeField.isGood] at hgx
      | malformed => rw [hdx] at hgx; simp [TimeField.isGood] at hgx
      | good d =>
        by_cases hov : over T x = true
        · have e1 : runBlocks T iv (x :: xs) [] = runBlocks T iv xs [x] := by
            simp [runBlocks, hdx, hov]
          rw [e1, runBlocks_open_run T iv xs x []
            (fun f hf => hgood f (by simp [hf])), List.nil_append] at hev
          rcases List.mem_cons.1 hev with hev | hev
          · subst hev
            refine ⟨0, by simp [closeBlock], ?_, ?_, Or.inl rfl, ?_⟩
            · simp only [closeBlock, List.drop_zero, List.length_cons,
                List.take_succ_cons]
              exact congrArg (x :: ·) (takeWhile_eq_take (over T) xs).symm
            · intro f hf
              simp only [closeBlock, List.mem_cons] at hf
              rcases hf with hf | hf
              · exact hf ▸ hov
              · exact List.mem_takeWhile_imp hf
            · simp only [closeBlock, List.length_cons, Nat.zero_add,
                List.drop_succ_cons]
              rw [← dropWhile_eq_drop (over T) xs]
              cases hdw : (xs.dropWhile (over T)).head? with
              | none => exact Or.inl rfl
              | some y =>
                exact Or.inr ⟨y, rfl, head_dropWhile_false (over T) xs y hdw⟩
          · obtain ⟨i, hm⟩ := ih (xs.dropWhile (over T))
              (le_trans (List.dropWhile_sublist (over T)).length_le hlen)
              (fun f hf =>
                hgood f (by simp [(List.dropWhile_sublist (over T)).subset hf]))
              ev hev
            have hi : i ≠ 0 := by
              intro h0
              subst h0
              obtain ⟨hne, htake, hmem, -, -⟩ := hm
              cases hdw : xs.dropWhile (over T) with
              | nil =>
                rw [hdw] at htake
                simp at htake
                exact hne htake
              | cons y dw2 =>
                rw [hdw] at htake
                have hy : y ∈ ev.members := by
                  cases hms : ev.members with
                  | nil => exact absurd hms hne
                  | cons m ms =>
                    rw [hms] at htake
                    simp only [List.drop_zero, List.length_cons,
                      List.take_succ_cons, List.cons.injEq] at htake
                    rw [htake.1]
                    simp
                have hyt : over T y = true := hmem y hy
                have hyf := head_dropWhile_false (over T) xs y
                  (by rw [hdw]; rfl)
                rw [hyt] at hyf
                exact absurd hyf (by simp)
            have hsplit : x :: xs =
                (x :: xs.takeWhile (over T)) ++ xs.dropWhile (over T) := by
              rw [List.cons_append, List.takeWhile_append_dropWhile]
            refine ⟨(x :: xs.takeWhile (over T)).length + i, ?_⟩
            rw [hsplit]
            exact maxRunAt_shift (over T) _ _ i hi hm _
        · rw [Bool.not_eq_true] at hov
          have e1 : runBlocks T iv (x :: xs) [] = runBlocks T iv xs [] := by
            simp [runBlocks, hdx, hov]
          rw [e1] at hev
          obtain ⟨i, hm⟩ := ih xs hlen
            (fun f hf => hgood f (by simp [hf])) ev hev
          exact ⟨i + 1, maxRunAt_cons (over T) x xs ev.members i hm
            (fun _ => hov)⟩

/-- C1: for every forecast sequence of well-formed samples (the data model's
`ForecastSample` always carries a timestamp) and every threshold, each
emitted event's member list is a maximal run of the strict predicate
`wind_gust > T` inside the sequence: all members satisfy it, the sample
immediately before the run (when one exists) does not, and the sample at the
run's closing index (when one exists) does not. -/
theorem c1_blocks_maximal (T : ℚ) (iv : Int) (fs : List Forecast)
    (hgood : ∀ f ∈ fs, f.datetime.isGood = true)
    (ev : Event) (hev : ev ∈ runBlocks T iv fs []) :
    ∃ i, MaxRunAt (over T) fs ev.members i :=
  runBlocks_maxRun T iv fs.length fs le_rfl hgood ev hev

/-- C1 witness: the theorem applied to Scenario B's event. -/
theorem c1_witness :
    ∃ i, MaxRunAt (over 25) scenB
      (closeBlock 25 true (mkF dt7 40) [] (toSec dt8)).members i :=
  c1_blocks_maximal 25 (computeInterval scenB) scenB (by decide)
    (closeBlock 25 true (mkF dt7 40) [] (toSec dt8)) (by decide)


end Windcal
